import Mathlib

/-!
# Verification of the Things-Kit application kernel and modules

Shallow embedding of the Things-Kit framework (Go). The framework delegates
its dependency-injection and lifecycle kernel to the external Uber Fx
container; where kernel behaviour is not present in the repository's own
source, it is modelled from the specification (each such definition is
marked `Modelled from the spec:`). All other definitions are translated
directly from the repository's Go source files:

- `src/app/app.go`                (Application, Run, AsStartupFunc)
- `src/module/grpc/module.go`     (RunGrpcServer, service registration loop)
- `src/module/kafka/consumer.go`  (KafkaConsumer Start/Stop and consume loop)

Errors are modelled as `Option String` (`none` = Go `nil` error).
-/

set_option autoImplicit false

/-- A lifecycle hook pair, tied to one component instance. `onStartErr`
(resp. `onStopErr`) is the error the hook's start (resp. stop) callback
returns when invoked: `none` means success. -/
structure Hook where
  onStartErr : Option String
  onStopErr  : Option String
deriving DecidableEq, Repr

instance : Inhabited Hook := ⟨⟨none, none⟩⟩

/-- Modelled from the spec: the lifecycle coordinator's Start phase
(§4.5 of the spec; the implementation lives in the external Fx container,
not in this repository's source). Hooks are executed in order; on the first
failing `onStart`, Start aborts and rolls back by invoking `onStop` for the
previously-succeeded hooks in reverse order.

`runStartAux hooks idx started` processes the remaining `hooks`, where `idx`
is the index of the first remaining hook and `started` holds the indices of
the already-succeeded hooks, most recent first. The result is
`(indices whose onStart was invoked, in order;
  indices whose onStop was invoked during rollback, in order;
  the failing index and its error, if any)`. -/
def runStartAux : List Hook → Nat → List Nat → List Nat × List Nat × Option (Nat × String)
  | [], _, started => (started.reverse, [], none)
  | h :: t, idx, started =>
    match h.onStartErr with
    | some e => (started.reverse ++ [idx], started, some (idx, e))
    | none => runStartAux t (idx + 1) (idx :: started)

/-- Modelled from the spec: Start over a full hook list (§4.5). -/
def runStart (hooks : List Hook) : List Nat × List Nat × Option (Nat × String) :=
  runStartAux hooks 0 []

/-- The Things-Kit `Application` (src/app/app.go:10-12) wraps an `fx.App`.
Of the wrapped container we keep what `Run` observes: `appErr` is the value
of `fx.App.Err()` — the construction/graph-resolution error recorded by
`fx.New` — and `hooks` are the lifecycle hooks collected during
construction. -/
structure Application where
  appErr : Option String
  hooks  : List Hook
deriving DecidableEq, Repr

/-- `Application.Run` (src/app/app.go:33-39): if `a.app.Err()` is non-nil,
return it (no lifecycle phase runs); otherwise call `a.app.Run()` — which
in Fx has no error return value; it executes the lifecycle and its outcome
never reaches the caller — and then `return nil`.

The result is `(the error Run returns, the indices whose onStart hook was
invoked)`. -/
def Application.Run (a : Application) : Option String × List Nat :=
  match a.appErr with
  | some e => (some e, [])
  | none => (none, (runStart a.hooks).1)

/-- An application whose graph resolves fine but whose single lifecycle
hook fails on start with `"boom"`. -/
def appStartBoom : Application :=
  { appErr := none, hooks := [{ onStartErr := some "boom", onStopErr := none }] }

/-- A registration made against the container builder: either a plain
(singleton) component or a member of a named group. `α` is the type of the
delivered component values. -/
inductive Registration (α : Type) where
  | plain (c : α)
  | member (group : String) (c : α)
deriving DecidableEq, Repr

/-- The group a registration contributes to, if any. -/
def Registration.groupOf {α : Type} : Registration α → Option String
  | .plain _ => none
  | .member g _ => some g

/-- Modelled from the spec: the Group Collector (§4.4; implemented by the
external Fx container, whose value groups back the `group:"grpc.services"`
tag of `GrpcServerParams` in src/module/grpc/module.go:38). Members of a
group are delivered in registration order, duplicates permitted, no
deduplication; a group nobody registered into yields the empty sequence. -/
def groupMembers {α : Type} (regs : List (Registration α)) (g : String) : List α :=
  regs.filterMap fun r =>
    match r with
    | .plain _ => none
    | .member g2 c => if g2 = g then some c else none

/-- The dynamic type of a service binding's registrar value, as seen by the
type assertion in src/module/grpc/module.go:63: either exactly
`func(grpc.ServiceRegistrar, any)` or anything else. -/
inductive RegistrarSig where
  | exactSig
  | otherSig
deriving DecidableEq, Repr

/-- `serviceBinding` (src/module/grpc/module.go:27-30): a service
implementation (identified here by name) together with its registrar. -/
structure ServiceBinding where
  impl : String
  registrar : RegistrarSig
deriving DecidableEq, Repr

/-- The service-registration loop of `RunGrpcServer`
(src/module/grpc/module.go:60-66): for each binding, the registrar is
invoked iff the type assertion to `func(grpc.ServiceRegistrar, any)`
succeeds; the `if ok` has no else branch, so any other binding is passed
over without logging or error. The result is `(implementations registered
on the server, in order; log messages emitted by the loop)`. -/
def registerLoop : List ServiceBinding → List String × List String
  | [] => ([], [])
  | b :: rest =>
    let r := registerLoop rest
    match b.registrar with
    | .exactSig => (b.impl :: r.1, r.2)
    | .otherSig => r

/-- What `RunGrpcServer` (src/module/grpc/module.go:56-93) does when
invoked: register the matching services, then append one lifecycle hook
pair. `RunGrpcServer` itself returns nothing and has no failure path. -/
structure GrpcServerSetup where
  registeredImpls : List String
  loopLogs : List String
  hookAppended : Bool
deriving DecidableEq, Repr

/-- `RunGrpcServer` (src/module/grpc/module.go:56-93), applied to the
`Services` slice delivered for group `"grpc.services"`. -/
def RunGrpcServer (services : List ServiceBinding) : GrpcServerSetup :=
  { registeredImpls := (registerLoop services).1
  , loopLogs := (registerLoop services).2
  , hookAppended := true }

/-- Result of the gRPC server's `OnStart` hook. `spawnedServe = some o`
records that a goroutine running `server.Serve` was spawned and will
eventually observe outcome `o`; that outcome is visible only inside the
goroutine, never to the hook's return value. -/
structure GrpcStartResult where
  returned : Option String
  spawnedServe : Option (Option String)
deriving DecidableEq, Repr

/-- The `OnStart` hook appended by `RunGrpcServer`
(src/module/grpc/module.go:71-86): listen on `addr`; on listen error
return it wrapped; otherwise log, spawn `server.Serve(listener)` in a
goroutine, and return nil. `listenErr` is the outcome of `net.Listen`;
`serveOutcome` is what the spawned `Serve` call would eventually return. -/
def grpcOnStart (addr : String) (listenErr : Option String) (serveOutcome : Option String) :
    GrpcStartResult :=
  match listenErr with
  | some e => { returned := some ("failed to listen on " ++ addr ++ ": " ++ e)
              , spawnedServe := none }
  | none => { returned := none, spawnedServe := some serveOutcome }

/-- Observable events of the Kafka consumer (src/module/kafka/consumer.go).
Messages are identified by a natural number. -/
inductive KEvent where
  | logInfo
  | mkCancelCtx
  | spawnConsumeLoop
  | fetch (m : Nat)
  | handleMsg (m : Nat)
  | commit (m : Nat)
  | logError
deriving DecidableEq, Repr

/-- The synchronous body of `KafkaConsumer.Start`
(src/module/kafka/consumer.go:78-136): log, create a cancellable context,
spawn the consume-loop goroutine (whose iterations are `consumeStep`
below, executed only inside the goroutine), and return nil. The result is
`(events performed before returning, the returned error)`. -/
def kafkaConsumerStart : List KEvent × Option String :=
  ([KEvent.logInfo, KEvent.mkCancelCtx, KEvent.spawnConsumeLoop], none)

/-- Outcome of the `FetchMessage` call inside the consume loop
(src/module/kafka/consumer.go:95): the context was cancelled, the fetch
failed with some other error, or a message arrived. -/
inductive FetchResult where
  | canceled
  | failed (e : String)
  | msg (m : Nat)
deriving DecidableEq, Repr

/-- Whether an iteration of the consume loop exits the goroutine or goes
on to the next message. -/
inductive StepOutcome where
  | exitLoop
  | continueLoop
deriving DecidableEq, Repr

/-- One iteration of the consume loop spawned by `KafkaConsumer.Start`
(src/module/kafka/consumer.go:89-132): if the consumer context is done,
return; otherwise fetch — a cancellation error returns, any other fetch
error is logged and the loop continues; a fetched message is handled, a
handler error is logged and the commit is skipped (`continue`); after a
successful handle the offset is committed, and a commit error is logged
but the loop still continues. `handleRes` (resp. `commitRes`) is what
`Handler.Handle` (resp. `CommitMessages`) returns when called on the
fetched message. -/
def consumeStep (ctxDone : Bool) (fetched : FetchResult)
    (handleRes : Option String) (commitRes : Option String) :
    List KEvent × StepOutcome :=
  if ctxDone then ([], .exitLoop)
  else
    match fetched with
    | .canceled => ([], .exitLoop)
    | .failed _ => ([.logError], .continueLoop)
    | .msg m =>
      match handleRes with
      | some _ => ([.fetch m, .handleMsg m, .logError], .continueLoop)
      | none =>
        match commitRes with
        | some _ => ([.fetch m, .handleMsg m, .commit m, .logError], .continueLoop)
        | none => ([.fetch m, .handleMsg m, .commit m], .continueLoop)

/-- Actions performed by `KafkaConsumer.Stop`
(src/module/kafka/consumer.go:139-153), in order: log; if the cancel
function is non-nil, cancel the consumer context; close the reader;
return. The source contains no join, wait group, or channel receive on
the consume goroutine, so no waiting action ever appears. -/
inductive StopEvent where
  | logInfo
  | cancelCtx
  | closeReader
  | waitForLoop
deriving DecidableEq, Repr

/-- Event trace of `KafkaConsumer.Stop` (src/module/kafka/consumer.go:139-153).
`hasCancel` says whether `c.cancel` is non-nil (it is, once `Start` ran). -/
def kafkaStopEvents (hasCancel : Bool) : List StopEvent :=
  [StopEvent.logInfo] ++ (if hasCancel then [StopEvent.cancelCtx] else [])
    ++ [StopEvent.closeReader]

/-- Return value of `KafkaConsumer.Stop` (src/module/kafka/consumer.go:147-152):
a close error is wrapped, otherwise nil. -/
def kafkaStopReturn (closeErr : Option String) : Option String :=
  match closeErr with
  | some e => some ("failed to close Kafka reader: " ++ e)
  | none => none

/-- An option handed to the container builder, as relevant here: a provider
or an invoke function (both identified by name). -/
inductive FxOption where
  | provide (name : String)
  | invoke (name : String)
deriving DecidableEq, Repr

/-- `AsStartupFunc` (src/app/app.go:60-62): registers the constructor as an
invoke function of the container. -/
def AsStartupFunc (f : String) : FxOption := FxOption.invoke f

/-- The names of the invoke functions among a list of options, in
registration order. -/
def invokeNames : List FxOption → List String
  | [] => []
  | FxOption.provide _ :: t => invokeNames t
  | FxOption.invoke f :: t => f :: invokeNames t

/-- A phase event in an application run: a provider constructed, an invoke
function executed, an onStart hook executed, or the application serving
traffic. -/
inductive Phase where
  | construct (name : String)
  | invokeRun (name : String)
  | startHook (i : Nat)
  | serving
deriving DecidableEq, Repr

/-- Position of a phase event in the run ordering: construction happens
first, then invoke functions, then onStart hooks, and only then is traffic
served. -/
def phaseRank : Phase → Nat
  | .construct _ => 0
  | .invokeRun _ => 1
  | .startHook _ => 2
  | .serving => 3

/-- Modelled from the spec: the external container's run ordering (§4.5,
§6). Providers are constructed in topological order (`constructOrder`),
then the registered invoke functions run in registration order, then the
collected onStart hooks run, and only then does the application accept
traffic. `AsStartupFunc` relies exactly on this ordering. -/
def appRunTrace (opts : List FxOption) (constructOrder : List String) (nHooks : Nat) :
    List Phase :=
  constructOrder.map Phase.construct ++ (invokeNames opts).map Phase.invokeRun
    ++ (List.range nHooks).map Phase.startHook ++ [Phase.serving]

/-! ## Theorems -/

/-- Claim C1: `Run()` is claimed to return the resolution error if graph
resolution fails and a non-nil error wrapping any start or stop hook
failure. The code does the former but cannot do the latter: `fx.App.Run`
has no error return value, so after a nil `Err()` the method always ends
in `return nil`. Evaluated at an application whose only start hook fails
with `"boom"`: the hook's failure is recorded by the lifecycle, yet `Run`
returns nil. -/
theorem run_returns_nil_despite_start_failure :
    Application.Run appStartBoom = (none, [0])
    ∧ (runStart appStartBoom.hooks).2.2 = some (0, "boom") := by
  constructor
  · rfl
  · rfl

/-- Claim C2: if graph resolution fails, `Run` returns the resolution error
and no onStart hook is invoked for any component
(src/app/app.go:34-36: a non-nil `Err()` returns before `a.app.Run()`). -/
theorem run_resolve_error_no_hook_runs (a : Application) (e : String)
    (h : a.appErr = some e) :
    Application.Run a = (some e, []) := by
  simp [Application.Run, h]

theorem run_resolve_error_no_hook_runs_witness :
    (Application.mk (some "missing dependency: log.Logger") [default]).appErr
        = some "missing dependency: log.Logger"
    ∧ Application.Run (Application.mk (some "missing dependency: log.Logger") [default])
        = (some "missing dependency: log.Logger", []) :=
  ⟨rfl, run_resolve_error_no_hook_runs _ _ rfl⟩

/-- Claim C6: onStart hooks of components with background work return
without waiting for it. `KafkaConsumer.Start` performs no fetch and no
handle before returning and returns nil, having only spawned the consume
loop; the gRPC `OnStart` returns nil whatever the spawned `Serve` call
will eventually produce. -/
theorem onstart_hooks_do_not_block :
    (∀ m, KEvent.fetch m ∉ kafkaConsumerStart.1)
    ∧ (∀ m, KEvent.handleMsg m ∉ kafkaConsumerStart.1)
    ∧ kafkaConsumerStart.2 = none
    ∧ KEvent.spawnConsumeLoop ∈ kafkaConsumerStart.1
    ∧ (∀ addr serveOutcome, (grpcOnStart addr none serveOutcome).returned = none
        ∧ (grpcOnStart addr none serveOutcome).spawnedServe = some serveOutcome) := by
  refine ⟨?_, ?_, rfl, ?_, ?_⟩
  · intro m; simp [kafkaConsumerStart]
  · intro m; simp [kafkaConsumerStart]
  · simp [kafkaConsumerStart]
  · intro addr serveOutcome; exact ⟨rfl, rfl⟩

/-- Claim C7: `Stop` is claimed to wait, within the hook, for the
consumption goroutine to finish in-flight processing before returning.
The code cancels the consumer context and closes the reader but contains
no wait: evaluated after `Start` has run (`hasCancel = true`), the stop
trace is exactly log, cancel, close — no waiting action occurs — and the
return value is nil when the close succeeds. -/
theorem kafka_stop_never_waits_for_loop :
    kafkaStopEvents true = [StopEvent.logInfo, StopEvent.cancelCtx, StopEvent.closeReader]
    ∧ StopEvent.waitForLoop ∉ kafkaStopEvents true
    ∧ StopEvent.cancelCtx ∈ kafkaStopEvents true
    ∧ kafkaStopReturn none = none := by
  refine ⟨rfl, ?_, ?_, rfl⟩
  · simp [kafkaStopEvents]
  · simp [kafkaStopEvents]

/-- Claim C9: in a consume-loop iteration on a fetched message, the offset
is committed iff the handler returned nil; a handler error skips the
commit and the loop continues; a commit error also leaves the loop
running. -/
theorem consume_commit_iff_handle_ok (m : Nat) (handleRes commitRes : Option String) :
    (KEvent.commit m ∈ (consumeStep false (FetchResult.msg m) handleRes commitRes).1
        ↔ handleRes = none)
    ∧ (consumeStep false (FetchResult.msg m) handleRes commitRes).2
        = StepOutcome.continueLoop
    ∧ (handleRes ≠ none →
        (consumeStep false (FetchResult.msg m) handleRes commitRes).1
          = [KEvent.fetch m, KEvent.handleMsg m, KEvent.logError]) := by
  cases handleRes <;> cases commitRes <;> simp [consumeStep]

theorem consume_commit_iff_handle_ok_witness :
    ((KEvent.commit 5 ∈ (consumeStep false (FetchResult.msg 5) (some "bad") none).1
        ↔ (some "bad" : Option String) = none)
      ∧ (consumeStep false (FetchResult.msg 5) (some "bad") none).2
          = StepOutcome.continueLoop
      ∧ ((some "bad" : Option String) ≠ none →
          (consumeStep false (FetchResult.msg 5) (some "bad") none).1
            = [KEvent.fetch 5, KEvent.handleMsg 5, KEvent.logError]))
    ∧ ((KEvent.commit 7 ∈ (consumeStep false (FetchResult.msg 7) none (some "nope")).1
        ↔ (none : Option String) = none)
      ∧ (consumeStep false (FetchResult.msg 7) none (some "nope")).2
          = StepOutcome.continueLoop
      ∧ ((none : Option String) ≠ none →
          (consumeStep false (FetchResult.msg 7) none (some "nope")).1
            = [KEvent.fetch 7, KEvent.handleMsg 7, KEvent.logError])) :=
  ⟨consume_commit_iff_handle_ok 5 (some "bad") none,
   consume_commit_iff_handle_ok 7 none (some "nope")⟩

/-- The registration loop registers exactly the implementations whose
registrar has the exact asserted signature, in order, and logs nothing. -/
theorem registerLoop_eq (services : List ServiceBinding) :
    registerLoop services
      = (services.filterMap fun b =>
          match b.registrar with
          | RegistrarSig.exactSig => some b.impl
          | RegistrarSig.otherSig => none, []) := by
  induction services with
  | nil => rfl
  | cons b rest ih =>
    cases h : b.registrar <;> simp [registerLoop, List.filterMap_cons, h, ih]

/-- Claim C10: `RunGrpcServer` invokes a binding's registrar iff its
dynamic type is exactly `func(grpc.ServiceRegistrar, any)`; every other
binding is skipped silently — the loop emits no log and `RunGrpcServer`
has no error path — and the server's lifecycle hook is still appended. -/
theorem registrar_invoked_iff_exact_signature (services : List ServiceBinding) :
    (RunGrpcServer services).registeredImpls
      = (services.filterMap fun b =>
          match b.registrar with
          | RegistrarSig.exactSig => some b.impl
          | RegistrarSig.otherSig => none)
    ∧ (RunGrpcServer services).loopLogs = []
    ∧ (RunGrpcServer services).hookAppended = true := by
  refine ⟨?_, ?_, rfl⟩ <;> simp [RunGrpcServer, registerLoop_eq]

/-- `groupMembers` distributes over concatenation of registration lists. -/
theorem groupMembers_append {α : Type} (g : String) (xs ys : List (Registration α)) :
    groupMembers (xs ++ ys) g = groupMembers xs g ++ groupMembers ys g :=
  List.filterMap_append xs ys _

/-- A registration list none of whose entries targets group `g`
contributes nothing to `g`. -/
theorem groupMembers_eq_nil {α : Type} (g : String) (regs : List (Registration α))
    (h : ∀ r ∈ regs, r.groupOf ≠ some g) : groupMembers regs g = [] := by
  induction regs with
  | nil => rfl
  | cons r t ih =>
    have ht : ∀ x ∈ t, x.groupOf ≠ some g := fun x hx => h x (List.mem_cons_of_mem r hx)
    have hr := h r (List.mem_cons_self r t)
    cases r with
    | plain c => simpa [groupMembers, List.filterMap_cons] using ih ht
    | member g2 c =>
      have hne : ¬ g2 = g := by
        intro hg; exact hr (by simp [Registration.groupOf, hg])
      simpa [groupMembers, List.filterMap_cons, hne] using ih ht

/-- A registration into group `g` contributes exactly its member. -/
theorem groupMembers_cons_member {α : Type} (g : String) (c : α)
    (rest : List (Registration α)) :
    groupMembers (Registration.member g c :: rest) g = c :: groupMembers rest g := by
  simp [groupMembers, List.filterMap_cons]

/-- Claim C3: registering members `c1, c2, c3` to a group in that order,
with arbitrary unrelated registrations interleaved anywhere around them,
delivers exactly the ordered sequence `[c1, c2, c3]` — registration order
preserved, duplicates permitted (`c1, c2, c3` need not be distinct),
nothing deduplicated. -/
theorem group_order_preserved {α : Type} (g : String) (c1 c2 c3 : α)
    (xs ys zs ws : List (Registration α))
    (hxs : ∀ r ∈ xs, r.groupOf ≠ some g)
    (hys : ∀ r ∈ ys, r.groupOf ≠ some g)
    (hzs : ∀ r ∈ zs, r.groupOf ≠ some g)
    (hws : ∀ r ∈ ws, r.groupOf ≠ some g) :
    groupMembers
      (xs ++ Registration.member g c1
        :: (ys ++ Registration.member g c2
          :: (zs ++ Registration.member g c3 :: ws))) g
      = [c1, c2, c3] := by
  rw [groupMembers_append, groupMembers_eq_nil g xs hxs, groupMembers_cons_member,
    groupMembers_append, groupMembers_eq_nil g ys hys, groupMembers_cons_member,
    groupMembers_append, groupMembers_eq_nil g zs hzs, groupMembers_cons_member,
    groupMembers_eq_nil g ws hws]
  rfl

theorem group_order_preserved_witness :
    (∀ r ∈ ([Registration.plain "cfg"] : List (Registration String)),
        r.groupOf ≠ some "grpc.services")
    ∧ (∀ r ∈ ([Registration.member "other.group" "h"] : List (Registration String)),
        r.groupOf ≠ some "grpc.services")
    ∧ (∀ r ∈ ([] : List (Registration String)), r.groupOf ≠ some "grpc.services")
    ∧ (∀ r ∈ ([Registration.plain "log"] : List (Registration String)),
        r.groupOf ≠ some "grpc.services")
    ∧ groupMembers
        ([Registration.plain "cfg"] ++ Registration.member "grpc.services" "s1"
          :: ([Registration.member "other.group" "h"]
            ++ Registration.member "grpc.services" "s2"
              :: (([] : List (Registration String))
                ++ Registration.member "grpc.services" "s1"
                  :: [Registration.plain "log"]))) "grpc.services"
        = ["s1", "s2", "s1"] :=
  ⟨by decide, by decide, by decide, by decide,
   group_order_preserved "grpc.services" "s1" "s2" "s1" _ _ _ _
     (by decide) (by decide) (by decide) (by decide)⟩

/-- Claim C4: a group with zero registered members resolves to the empty
sequence rather than an error, and the gRPC server with an empty
`"grpc.services"` group still resolves: `RunGrpcServer` registers nothing,
emits nothing, appends its lifecycle hooks, and its `OnStart` hook listens
and spawns `Serve`, returning nil. -/
theorem empty_group_server_starts (regs : List (Registration String))
    (h : ∀ r ∈ regs, r.groupOf ≠ some "grpc.services") :
    groupMembers regs "grpc.services" = []
    ∧ RunGrpcServer []
        = { registeredImpls := [], loopLogs := [], hookAppended := true }
    ∧ (∀ addr serveOutcome, (grpcOnStart addr none serveOutcome).returned = none
        ∧ (grpcOnStart addr none serveOutcome).spawnedServe = some serveOutcome) := by
  refine ⟨groupMembers_eq_nil _ _ h, rfl, ?_⟩
  intro addr serveOutcome
  exact ⟨rfl, rfl⟩

theorem empty_group_server_starts_witness :
    (∀ r ∈ ([Registration.plain "cfg", Registration.plain "log",
        Registration.member "http.handlers" "h"] : List (Registration String)),
        r.groupOf ≠ some "grpc.services")
    ∧ (groupMembers ([Registration.plain "cfg", Registration.plain "log",
          Registration.member "http.handlers" "h"] : List (Registration String))
          "grpc.services" = []
      ∧ RunGrpcServer []
          = { registeredImpls := [], loopLogs := [], hookAppended := true }
      ∧ (∀ addr serveOutcome, (grpcOnStart addr none serveOutcome).returned = none
          ∧ (grpcOnStart addr none serveOutcome).spawnedServe = some serveOutcome)) :=
  ⟨by decide, empty_group_server_starts _ (by decide)⟩

/-- Characterization of `runStartAux` when the first failure among the
remaining hooks sits at relative position `j`. -/
theorem runStartAux_spec (j : Nat) (e : String) :
    ∀ (hooks : List Hook) (idx : Nat) (started : List Nat),
      j < hooks.length →
      (∀ i, i < j → (hooks.getD i default).onStartErr = none) →
      (hooks.getD j default).onStartErr = some e →
      runStartAux hooks idx started
        = (started.reverse ++ List.range' idx j ++ [idx + j],
           (List.range' idx j).reverse ++ started,
           some (idx + j, e)) := by
  induction j with
  | zero =>
    intro hooks idx started hlen hgood hbad
    match hooks with
    | h :: t =>
      have hh : h.onStartErr = some e := by simpa using hbad
      simp [runStartAux, hh]
  | succ n ih =>
    intro hooks idx started hlen hgood hbad
    match hooks with
    | h :: t =>
      have h0 : h.onStartErr = none := by simpa using hgood 0 (Nat.succ_pos n)
      have hlen2 : n < t.length := Nat.lt_of_succ_lt_succ hlen
      have hgood2 : ∀ i, i < n → (t.getD i default).onStartErr = none := by
        intro i hi
        simpa using hgood (i + 1) (Nat.succ_lt_succ hi)
      have hbad2 : (t.getD n default).onStartErr = some e := by simpa using hbad
      rw [runStartAux, h0]
      rw [ih t (idx + 1) (idx :: started) hlen2 hgood2 hbad2]
      have hidx : idx + 1 + n = idx + (n + 1) := by omega
      simp [List.range'_succ, hidx]

/-- Claim C5 (indices 0-based): if the onStart hooks at positions
`0..j-1` succeed and the hook at position `j` fails with `e`, then exactly
the hooks `0..j` had their onStart invoked (nothing after `j` starts),
exactly the hooks `0..j-1` have their onStop invoked, in strict reverse
order — hook `j`'s own onStop is not among them — and Start reports
`(j, e)`, the failing hook and its cause. -/
theorem start_failure_rolls_back_prefix (hooks : List Hook) (j : Nat) (e : String)
    (hj : j < hooks.length)
    (hgood : ∀ i, i < j → (hooks.getD i default).onStartErr = none)
    (hbad : (hooks.getD j default).onStartErr = some e) :
    runStart hooks = (List.range (j + 1), (List.range j).reverse, some (j, e)) := by
  have h := runStartAux_spec j e hooks 0 [] hj hgood hbad
  simpa [runStart, List.range_eq_range', List.range'_concat] using h

theorem start_failure_rolls_back_prefix_witness :
    (2 < ([⟨none, none⟩, ⟨none, some "stopfail"⟩, ⟨some "boom", none⟩,
        ⟨none, none⟩] : List Hook).length)
    ∧ (∀ i, i < 2 → (([⟨none, none⟩, ⟨none, some "stopfail"⟩, ⟨some "boom", none⟩,
        ⟨none, none⟩] : List Hook).getD i default).onStartErr = none)
    ∧ (([⟨none, none⟩, ⟨none, some "stopfail"⟩, ⟨some "boom", none⟩,
        ⟨none, none⟩] : List Hook).getD 2 default).onStartErr = some "boom"
    ∧ runStart ([⟨none, none⟩, ⟨none, some "stopfail"⟩, ⟨some "boom", none⟩,
        ⟨none, none⟩] : List Hook)
        = ([0, 1, 2], [1, 0], some (2, "boom")) :=
  ⟨by decide, by decide, by decide,
   start_failure_rolls_back_prefix _ 2 "boom" (by decide) (by decide) (by decide)⟩

/-- The run trace is sorted by phase rank: constructions, invoke
functions, onStart hooks, and serving come in that order. -/
theorem appRunTrace_sorted (opts : List FxOption) (constructOrder : List String) (n : Nat) :
    (appRunTrace opts constructOrder n).Pairwise
      (fun a b => phaseRank a ≤ phaseRank b) := by
  have hA : ∀ p ∈ constructOrder.map Phase.construct, phaseRank p = 0 := by
    intro p hp
    obtain ⟨x, -, rfl⟩ := List.mem_map.mp hp
    rfl
  have hB : ∀ p ∈ (invokeNames opts).map Phase.invokeRun, phaseRank p = 1 := by
    intro p hp
    obtain ⟨x, -, rfl⟩ := List.mem_map.mp hp
    rfl
  have hC : ∀ p ∈ (List.range n).map Phase.startHook, phaseRank p = 2 := by
    intro p hp
    obtain ⟨x, -, rfl⟩ := List.mem_map.mp hp
    rfl
  have const_pw : ∀ (l : List Phase) (c : Nat), (∀ p ∈ l, phaseRank p = c) →
      l.Pairwise (fun a b => phaseRank a ≤ phaseRank b) := by
    intro l c hc
    refine List.pairwise_of_forall_mem_list fun a ha b hb => ?_
    rw [hc a ha, hc b hb]
  unfold appRunTrace
  refine List.pairwise_append.mpr ⟨List.pairwise_append.mpr ⟨List.pairwise_append.mpr
    ⟨const_pw _ 0 hA, const_pw _ 1 hB, ?_⟩, const_pw _ 2 hC, ?_⟩,
    by simp, ?_⟩
  · intro a ha b hb
    rw [hA a ha, hB b hb]
    omega
  · intro a ha b hb
    rcases List.mem_append.mp ha with h | h
    · rw [hA a h, hC b hb]
      omega
    · rw [hB a h, hC b hb]
      omega
  · intro a ha b hb
    have hb3 : b = Phase.serving := List.mem_singleton.mp hb
    subst hb3
    have hle : phaseRank a ≤ 3 := by
      rcases List.mem_append.mp ha with h | h
      · rcases List.mem_append.mp h with h2 | h2
        · rw [hA a h2]
          omega
        · rw [hB a h2]
          omega
      · rw [hC a h]
        omega
    simpa [phaseRank] using hle

/-- A function registered as an invoke option appears among the invoke
names. -/
theorem invoke_mem_invokeNames (opts : List FxOption) (f : String)
    (h : FxOption.invoke f ∈ opts) : f ∈ invokeNames opts := by
  induction opts with
  | nil => cases h
  | cons o t ih =>
    rcases List.mem_cons.mp h with h1 | h2
    · rw [← h1]
      simp [invokeNames]
    · cases o with
      | provide nm => simpa [invokeNames] using ih h2
      | invoke g =>
        simp only [invokeNames, List.mem_cons]
        exact Or.inr (ih h2)

/-- Claim C8: a synchronous startup task registered through
`AsStartupFunc` appears in the run trace as an invoke phase, and it sits
strictly before every onStart hook and before the serving phase: it
completes or fails before any server component accepts traffic, its
position fixed by the container's construct-invoke-start ordering. -/
theorem asStartupFunc_runs_before_traffic (opts : List FxOption)
    (constructOrder : List String) (n : Nat) (f : String)
    (hreg : AsStartupFunc f ∈ opts) :
    ∃ i : Fin (appRunTrace opts constructOrder n).length,
      (appRunTrace opts constructOrder n).get i = Phase.invokeRun f
      ∧ ∀ j : Fin (appRunTrace opts constructOrder n).length,
          ((∃ k, (appRunTrace opts constructOrder n).get j = Phase.startHook k)
            ∨ (appRunTrace opts constructOrder n).get j = Phase.serving)
          → i < j := by
  have hf : f ∈ invokeNames opts := invoke_mem_invokeNames opts f hreg
  have hmem : Phase.invokeRun f ∈ appRunTrace opts constructOrder n := by
    unfold appRunTrace
    exact List.mem_append_left _ (List.mem_append_left _
      (List.mem_append_right _ (List.mem_map_of_mem _ hf)))
  obtain ⟨i, hi⟩ := List.mem_iff_get.mp hmem
  refine ⟨i, hi, ?_⟩
  intro j hj
  have hp := appRunTrace_sorted opts constructOrder n
  rw [List.pairwise_iff_get] at hp
  by_contra hlt
  rcases eq_or_lt_of_le (not_lt.mp hlt) with heq | hlt2
  · rcases hj with ⟨k, hk⟩ | hk
    · rw [heq, hi] at hk
      cases hk
    · rw [heq, hi] at hk
      cases hk
  · have hle := hp j i hlt2
    rcases hj with ⟨k, hk⟩ | hk
    · rw [hk, hi] at hle
      simp [phaseRank] at hle
    · rw [hk, hi] at hle
      simp [phaseRank] at hle

theorem asStartupFunc_runs_before_traffic_witness :
    AsStartupFunc "migrate" ∈ [FxOption.provide "db", AsStartupFunc "migrate"]
    ∧ ∃ i : Fin (appRunTrace [FxOption.provide "db", AsStartupFunc "migrate"]
        ["db"] 1).length,
      (appRunTrace [FxOption.provide "db", AsStartupFunc "migrate"] ["db"] 1).get i
          = Phase.invokeRun "migrate"
      ∧ ∀ j : Fin (appRunTrace [FxOption.provide "db", AsStartupFunc "migrate"]
            ["db"] 1).length,
          ((∃ k, (appRunTrace [FxOption.provide "db", AsStartupFunc "migrate"]
              ["db"] 1).get j = Phase.startHook k)
            ∨ (appRunTrace [FxOption.provide "db", AsStartupFunc "migrate"]
                ["db"] 1).get j = Phase.serving)
          → i < j :=
  ⟨by decide,
   asStartupFunc_runs_before_traffic [FxOption.provide "db", AsStartupFunc "migrate"]
     ["db"] 1 "migrate" (by decide)⟩

